import Mathlib

/-!
Verification of the Tableau backup tool's incremental synchronization engine
(`tableau-backup.py`): content fingerprinting, the download decision policy,
per-item fetch with change detection and error containment, the project tree
index, the recursive tree walker / directory materializer, and the snapshot
committer barrier.

External collaborators (the Tableau server client, the git client, the local
filesystem) are modelled as explicit parameters: the filesystem is a map from
path to optional byte contents, the server is an oracle giving each content
id's download behaviour.  Machine words in the MD5 fingerprint are `Nat`
kept below `2 ^ 32` by explicit reduction.
-/

namespace TableauBackup

/-- Byte strings: lists of naturals (each byte `< 256` in real files). -/
abbrev Bytes := List Nat

/-! ## MD5 (the fingerprint used by `calculate_file_hash`, line 75:
`hashlib.md5(f.read()).hexdigest()`). -/

/-- `2 ^ 32`, the word modulus. -/
def M32 : Nat := 4294967296

/-- Addition modulo `2 ^ 32`. -/
def add32 (a b : Nat) : Nat := (a + b) % M32

/-- Bitwise complement on 32-bit words (inputs kept `< 2 ^ 32`). -/
def not32 (x : Nat) : Nat := 4294967295 - x

/-- Left-rotation of a 32-bit word by `s` places (`0 < s < 32`). -/
def rotl32 (x s : Nat) : Nat := (x * 2 ^ s + x / 2 ^ (32 - s)) % M32

/-- The 64 MD5 round constants `K[i] = floor (|sin (i+1)| * 2^32)`. -/
def md5K : List Nat :=
  [3614090360, 3905402710, 606105819, 3250441966, 4118548399, 1200080426, 2821735955, 4249261313,
   1770035416, 2336552879, 4294925233, 2304563134, 1804603682, 4254626195, 2792965006, 1236535329,
   4129170786, 3225465664, 643717713, 3921069994, 3593408605, 38016083, 3634488961, 3889429448,
   568446438, 3275163606, 4107603335, 1163531501, 2850285829, 4243563512, 1735328473, 2368359562,
   4294588738, 2272392833, 1839030562, 4259657740, 2763975236, 1272893353, 4139469664, 3200236656,
   681279174, 3936430074, 3572445317, 76029189, 3654602809, 3873151461, 530742520, 3299628645,
   4096336452, 1126891415, 2878612391, 4237533241, 1700485571, 2399980690, 4293915773, 2240044497,
   1873313359, 4264355552, 2734768916, 1309151649, 4149444226, 3174756917, 718787259, 3951481745]

/-- The 64 MD5 per-round left-rotation amounts. -/
def md5S : List Nat :=
  [7, 12, 17, 22, 7, 12, 17, 22, 7, 12, 17, 22, 7, 12, 17, 22,
   5, 9, 14, 20, 5, 9, 14, 20, 5, 9, 14, 20, 5, 9, 14, 20,
   4, 11, 16, 23, 4, 11, 16, 23, 4, 11, 16, 23, 4, 11, 16, 23,
   6, 10, 15, 21, 6, 10, 15, 21, 6, 10, 15, 21, 6, 10, 15, 21]

/-- The MD5 round mixing function for round `i` on words `b`, `c`, `d`. -/
def md5F (i b c d : Nat) : Nat :=
  if i < 16 then Nat.lor (Nat.land b c) (Nat.land (not32 b) d)
  else if i < 32 then Nat.lor (Nat.land d b) (Nat.land (not32 d) c)
  else if i < 48 then Nat.xor b (Nat.xor c d)
  else Nat.xor c (Nat.lor b (not32 d))

/-- The MD5 message-word index used in round `i`. -/
def md5G (i : Nat) : Nat :=
  if i < 16 then i
  else if i < 32 then (5 * i + 1) % 16
  else if i < 48 then (3 * i + 5) % 16
  else (7 * i) % 16

/-- The four 32-bit words of the MD5 internal state. -/
structure MD5State where
  a : Nat
  b : Nat
  c : Nat
  d : Nat
deriving Repr, DecidableEq

/-- The MD5 initialization vector. -/
def md5Init : MD5State := ⟨0x67452301, 0xefcdab89, 0x98badcfe, 0x10325476⟩

/-- One MD5 round: shift the state, mixing in message word `m[g i]`. -/
def md5Round (m : List Nat) (st : MD5State) (i : Nat) : MD5State :=
  let f := md5F i st.b st.c st.d
  let tmp := add32 st.a (add32 f (add32 (md5K.getD i 0) (m.getD (md5G i) 0)))
  ⟨st.d, add32 st.b (rotl32 tmp (md5S.getD i 0)), st.b, st.c⟩

/-- Decode a 64-byte chunk into 16 little-endian 32-bit words. -/
def toWords : List Nat → List Nat
  | b0 :: b1 :: b2 :: b3 :: rest =>
      (b0 + 256 * b1 + 65536 * b2 + 16777216 * b3) :: toWords rest
  | _ => []

/-- Process one 64-byte chunk: 64 rounds, then add the state back in. -/
def md5Chunk (st : MD5State) (chunk : List Nat) : MD5State :=
  let m := toWords chunk
  let e := (List.range 64).foldl (md5Round m) st
  ⟨add32 st.a e.a, add32 st.b e.b, add32 st.c e.c, add32 st.d e.d⟩

/-- Split a byte string into 64-byte chunks. -/
def chunks64 (l : List Nat) : List (List Nat) :=
  match l with
  | [] => []
  | x :: xs => ((x :: xs).take 64) :: chunks64 ((x :: xs).drop 64)
termination_by l.length
decreasing_by simp [List.length_drop]; omega

/-- MD5 padding: `0x80`, zeros to 56 mod 64, then the bit length as
64-bit little-endian. -/
def md5Pad (msg : Bytes) : Bytes :=
  let len := msg.length
  let z := (64 + 56 - (len + 1) % 64) % 64
  let bitLen := (8 * len) % 2 ^ 64
  msg ++ [128] ++ List.replicate z 0 ++
    [bitLen % 256, bitLen / 2 ^ 8 % 256, bitLen / 2 ^ 16 % 256, bitLen / 2 ^ 24 % 256,
     bitLen / 2 ^ 32 % 256, bitLen / 2 ^ 40 % 256, bitLen / 2 ^ 48 % 256, bitLen / 2 ^ 56 % 256]

/-- The four little-endian bytes of a 32-bit word. -/
def toBytesLE (w : Nat) : Bytes :=
  [w % 256, w / 2 ^ 8 % 256, w / 2 ^ 16 % 256, w / 2 ^ 24 % 256]

/-- The 16-byte MD5 digest of a byte string. -/
def md5Bytes (msg : Bytes) : Bytes :=
  let fin := (chunks64 (md5Pad msg)).foldl md5Chunk md5Init
  toBytesLE fin.a ++ toBytesLE fin.b ++ toBytesLE fin.c ++ toBytesLE fin.d

/-- Lower-case hex character of a nibble. -/
def hexChar (n : Nat) : Char := if n < 10 then Char.ofNat (48 + n) else Char.ofNat (87 + n)

/-- Two hex characters of a byte. -/
def byteToHex (b : Nat) : List Char := [hexChar (b / 16), hexChar (b % 16)]

/-- `hashlib.md5(msg).hexdigest()`: the 32-character lower-case hex digest. -/
def md5hexdigest (msg : Bytes) : String := String.mk ((md5Bytes msg).flatMap byteToHex)

/-! ## Filesystem, configuration and server model -/

/-- The local filesystem under the working directory: each path either holds
byte contents or is absent.  Directory creation (`mkdir(parents=True,
exist_ok=True)`) is idempotent and not tracked separately. -/
abbrev FS := String → Option Bytes

/-- Write bytes to a path (the effect of a completed download). -/
def writeFile (fs : FS) (path : String) (contents : Bytes) : FS :=
  fun q => if q = path then some contents else fs q

/-- The configuration values consumed by the core (spec section 6):
`overwrite_existing` (default false), `base_dir`, `max_workers` (the
worker-pool cap; it bounds scheduling only and never affects which fetches
run or their outcomes). -/
structure Config where
  overwrite_existing : Bool
  base_dir : String
  max_workers : Nat
deriving Repr, DecidableEq

/-- Behaviour of the remote download call for one content id:
deliver bytes, raise `ServerResponseError`, or raise some other exception. -/
inductive DlBehavior
  | ok (contents : Bytes)
  | serverResponseError
  | otherError
deriving Repr, DecidableEq

/-- The Tableau server, an opaque collaborator: what
`server.workbooks.download` / `server.datasources.download` does per id. -/
structure Server where
  workbooks : String → DlBehavior
  datasources : String → DlBehavior

/-- The kind of a content item. -/
inductive Kind
  | workbook
  | datasource
deriving Repr, DecidableEq

/-- Error kinds distinguished by the two `except` clauses of the download
functions (lines 101-104 and 125-128). -/
inductive ErrKind
  | serverResponse
  | other
deriving Repr, DecidableEq

/-- The observable outcome of one fetch attempt: the content's kind, name
and id, the resolved target path, the returned changed flag (the Python
return value), which exception class was caught (if any), and whether the
decision policy skipped the download. -/
structure FetchOutcome where
  kind : Kind
  name : String
  contentId : String
  filepath : String
  changed : Bool
  error : Option ErrKind
  skipped : Bool
deriving Repr, DecidableEq

/-- Result of one download function call: the filesystem afterwards and the
recorded outcome. -/
structure DlResult where
  fs : FS
  outcome : FetchOutcome

/-! ## Fingerprint store and decision policy (lines 70-81) -/

/-- `calculate_file_hash` (lines 70-75): `""` for an absent file, else the
MD5 hex digest of the file's bytes. -/
def calculate_file_hash (fs : FS) (filepath : String) : String :=
  match fs filepath with
  | none => ""
  | some contents => md5hexdigest contents

/-- `should_download_file` (lines 77-81): skip only when overwrite is
disabled and the target exists.  Pure: reads only the flag and the path's
existence; the `content_id` argument is never consulted. -/
def should_download_file (cfg : Config) (fs : FS) (filepath : String)
    (content_id : String) : Bool :=
  if !cfg.overwrite_existing && (fs filepath).isSome then false else true

/-! ## Per-item fetch (lines 83-129) -/

/-- `download_workbook` (lines 83-105): resolve the target path, consult the
decision policy, fingerprint before, download, fingerprint after, return
`before != after`; both exception classes are caught inside and yield a
`false` return with the error kind recorded (logged). -/
def download_workbook (cfg : Config) (srv : Server) (fs : FS)
    (directory workbook_id workbook_name username : String) : DlResult :=
  let filepath := directory ++ "/" ++ workbook_name ++ ".twbx"
  if !(should_download_file cfg fs filepath workbook_id) then
    ⟨fs, ⟨.workbook, workbook_name, workbook_id, filepath, false, none, true⟩⟩
  else
    match srv.workbooks workbook_id with
    | .ok contents =>
        let original_hash := calculate_file_hash fs filepath
        let fs2 := writeFile fs filepath contents
        let new_hash := calculate_file_hash fs2 filepath
        ⟨fs2, ⟨.workbook, workbook_name, workbook_id, filepath,
               original_hash != new_hash, none, false⟩⟩
    | .serverResponseError =>
        ⟨fs, ⟨.workbook, workbook_name, workbook_id, filepath, false,
              some .serverResponse, false⟩⟩
    | .otherError =>
        ⟨fs, ⟨.workbook, workbook_name, workbook_id, filepath, false,
              some .other, false⟩⟩

/-- `download_datasource` (lines 107-129): identical to `download_workbook`
with the `tdsx` extension and the datasource endpoint. -/
def download_datasource (cfg : Config) (srv : Server) (fs : FS)
    (directory datasource_id datasource_name username : String) : DlResult :=
  let filepath := directory ++ "/" ++ datasource_name ++ ".tdsx"
  if !(should_download_file cfg fs filepath datasource_id) then
    ⟨fs, ⟨.datasource, datasource_name, datasource_id, filepath, false, none, true⟩⟩
  else
    match srv.datasources datasource_id with
    | .ok contents =>
        let original_hash := calculate_file_hash fs filepath
        let fs2 := writeFile fs filepath contents
        let new_hash := calculate_file_hash fs2 filepath
        ⟨fs2, ⟨.datasource, datasource_name, datasource_id, filepath,
               original_hash != new_hash, none, false⟩⟩
    | .serverResponseError =>
        ⟨fs, ⟨.datasource, datasource_name, datasource_id, filepath, false,
              some .serverResponse, false⟩⟩
    | .otherError =>
        ⟨fs, ⟨.datasource, datasource_name, datasource_id, filepath, false,
              some .other, false⟩⟩

/-! ## Project records and the content fetcher (lines 131-165) -/

/-- The project record read by `process_project_content` and
`create_and_fill_child_dir`: keys `'Name'`, `'Workbooks'`, `'Datasources'`,
`'Child Dirs'` (lines 134, 139, 141, 177).  Content tuples are
`(name, id)` pairs (`content[0]` is the name, `content[1]` the id,
lines 149-155). -/
structure Project where
  Name : String
  Workbooks : List (String × String)
  Datasources : List (String × String)
  ChildDirs : List String
deriving Repr, DecidableEq

/-- The project index handed to the walker (`alle_ordner`), as an
association list keyed by project id (`alle_ordner.get(child_id)`). -/
abbrev Index := List (String × Project)

/-- `project['Name'].replace(' ', '_')` (line 134): replace every space
character by an underscore. -/
def sanitize (s : String) : String :=
  String.mk (s.data.map (fun c => if c = ' ' then '_' else c))

/-- Events observable during a run: a project visit, one fetch outcome,
and the snapshot commit. -/
inductive Event
  | visit (projectId : String)
  | fetch (o : FetchOutcome)
  | commit
deriving Repr, DecidableEq

/-- The task list built at lines 138-142: workbooks first, then
datasources. -/
def download_tasks (proj : Project) : List (Kind × String × String) :=
  proj.Workbooks.map (fun c => (Kind.workbook, c)) ++
    proj.Datasources.map (fun c => (Kind.datasource, c))

/-- Execute the submitted download tasks (lines 144-163).  The bounded pool
is modelled by one admissible schedule (submission order); outcomes are
collected one per task via `as_completed`, a failure never removing a
sibling's future. -/
def run_download_tasks (cfg : Config) (srv : Server) (directory username : String) :
    List (Kind × String × String) → FS → FS × List Event
  | [], fs => (fs, [])
  | (k, name, cid) :: ts, fs =>
    let r := match k with
      | Kind.workbook => download_workbook cfg srv fs directory cid name username
      | Kind.datasource => download_datasource cfg srv fs directory cid name username
    let rest := run_download_tasks cfg srv directory username ts r.fs
    (rest.1, Event.fetch r.outcome :: rest.2)

/-- `process_project_content` (lines 131-165): resolve the project's
directory directly under `base_dir`, create it, and run all content
downloads. -/
def process_project_content (cfg : Config) (srv : Server) (proj : Project)
    (base_dir username : String) (fs : FS) : FS × List Event :=
  let directory := base_dir ++ "/" ++ sanitize proj.Name
  run_download_tasks cfg srv directory username (download_tasks proj) fs

/-! ## Tree walker (lines 167-178)

The recursion of `create_and_fill_child_dir` has no structural bound in the
source; `fuel` bounds the recursion depth, and a `none` result means the
bound was hit (the source would still be recursing). -/

/-- One iteration of the child loop: thread the filesystem through one
child's traversal and append its trace, propagating fuel exhaustion. -/
def walk_step (dl : String → FS → Option (FS × List Event))
    (acc : Option (FS × List Event)) (c : String) : Option (FS × List Event) :=
  match acc with
  | none => none
  | some (fs1, tr1) =>
    match dl c fs1 with
    | none => none
    | some (fs2, tr2) => some (fs2, tr1 ++ tr2)

/-- `create_and_fill_child_dir` (lines 167-178): look the id up in the
index (`alle_ordner.get`), return silently when absent, otherwise process
the project's content and recurse into each child id with the same
`base_dir`.  The recursion of the source has no structural bound; `fuel`
bounds the recursion depth, and a `none` result means the bound was hit
(the source would still be recursing). -/
def create_and_fill_child_dir : Nat → Config → Server → Index → String →
    String → String → FS → Option (FS × List Event)
  | 0, _, _, _, _, _, _, _ => none
  | fuel + 1, cfg, srv, alle_ordner, base_dir, child_id, username, fs =>
    match alle_ordner.lookup child_id with
    | none => some (fs, [])
    | some proj =>
      let r := process_project_content cfg srv proj base_dir username fs
      match proj.ChildDirs.foldl
          (walk_step (fun c fs1 =>
            create_and_fill_child_dir fuel cfg srv alle_ordner base_dir c username fs1))
          (some (r.1, [])) with
      | none => none
      | some (fs2, tr2) => some (fs2, Event.visit child_id :: r.2 ++ tr2)

/-- The child loop of lines 177-178 (also the shape of the root loop at
lines 214-230): walk each id in turn, threading the filesystem. -/
def walk_children (fuel : Nat) (cfg : Config) (srv : Server) (idx : Index)
    (bd un : String) (cs : List String) (fs : FS) : Option (FS × List Event) :=
  cs.foldl (walk_step (fun c fs1 =>
    create_and_fill_child_dir fuel cfg srv idx bd c un fs1)) (some (fs, []))

/-! ## Project cache construction and roots (lines 205-213) -/

/-- One element of the remote project listing (`TSC.Pager(server.projects)`):
id, name, and optional parent id. -/
structure ProjInfo where
  id : String
  name : String
  parent_id : Option String
deriving Repr, DecidableEq

/-- Python dictionary values occurring in the cache entries. -/
inductive PyVal
  | str (s : String)
  | null
deriving Repr, DecidableEq

/-- Python truthiness test `not proj.parent_id` (line 213): `None` and the
empty string are falsy. -/
def py_falsy : Option String → Bool
  | none => true
  | some s => s.isEmpty

/-- The `project_cache` dictionary built at lines 207-210: each project id
maps to a dictionary with exactly the keys `'name'` and `'parent_id'`. -/
def project_cache_of (projects : List ProjInfo) : List (String × List (String × PyVal)) :=
  projects.map (fun proj => (proj.id,
    [("name", PyVal.str proj.name),
     ("parent_id", match proj.parent_id with | some p => PyVal.str p | none => PyVal.null)]))

/-- `root_projects` (line 213): the projects with a falsy parent id. -/
def root_projects (projects : List ProjInfo) : List ProjInfo :=
  projects.filter (fun proj => py_falsy proj.parent_id)

/-- The dictionary keys each visited project entry must supply to
`process_project_content` and `create_and_fill_child_dir`
(lines 134, 139, 141, 177). -/
def walker_required_keys : List String :=
  ["Name", "Workbooks", "Datasources", "Child Dirs"]

/-! ## Run orchestration and the snapshot committer (lines 196-261) -/

/-- The orchestration of `backup_tableau` (lines 212-233) over an already
built index: walk every root traversal to completion (the `as_completed`
join over the root futures), then run `_commit_and_push_changes` exactly
once.  The commit event models lines 242-261 (stage all, one commit,
push). -/
def backup_tableau_run (fuel : Nat) (cfg : Config) (srv : Server) (idx : Index)
    (roots : List String) (username : String) (fs : FS) : Option (FS × List Event) :=
  match walk_children fuel cfg srv idx cfg.base_dir username roots fs with
  | none => none
  | some (fs1, tr1) => some (fs1, tr1 ++ [Event.commit])

/-! ## Trace observations -/

/-- Number of commit events in a trace. -/
def commit_count (tr : List Event) : Nat :=
  tr.countP (fun e => match e with | Event.commit => true | _ => false)

/-- Number of visits of a given project id in a trace. -/
def visit_count (x : String) (tr : List Event) : Nat :=
  tr.countP (fun e => match e with | Event.visit p => p == x | _ => false)

/-- The fetch outcomes recorded in a trace, in order. -/
def fetch_outcomes (tr : List Event) : List FetchOutcome :=
  tr.filterMap (fun e => match e with | Event.fetch o => some o | _ => none)

/-- The file extension per content kind (lines 85 and 109). -/
def extOf : Kind → String
  | .workbook => ".twbx"
  | .datasource => ".tdsx"

/-- A fetch outcome is placed flat: its target path lies directly under the
base directory in the directory of the (visited, indexed) project that owns
the content item, named `<content name>.<kind extension>` — regardless of
the project's depth in the tree. -/
def OutcomePlaced (idx : Index) (bd : String) (tr : List Event)
    (o : FetchOutcome) : Prop :=
  ∃ pid proj, idx.lookup pid = some proj ∧ Event.visit pid ∈ tr ∧
    o.filepath = bd ++ "/" ++ sanitize proj.Name ++ "/" ++ o.name ++ extOf o.kind ∧
    ((o.kind = Kind.workbook ∧ (o.name, o.contentId) ∈ proj.Workbooks) ∨
     (o.kind = Kind.datasource ∧ (o.name, o.contentId) ∈ proj.Datasources))

/-- Reachability in the index along `'Child Dirs'` edges: the projects the
walker can reach from a given start id.  Every node on the way, including
the start, must be present in the index (a missing id is skipped and stops
the descent). -/
inductive Reaches (idx : Index) (c : String) : String → Prop
  | refl (proj : Project) (h : idx.lookup c = some proj) : Reaches idx c c
  | step {p x : String} {proj projx : Project} :
      Reaches idx c p → idx.lookup p = some proj → x ∈ proj.ChildDirs →
      idx.lookup x = some projx → Reaches idx c x

/-! ## Concrete fixtures used to instantiate the theorems -/

/-- The default configuration written at lines 49-59: overwrite disabled. -/
def cfgDefault : Config := ⟨false, "Tableau_Projects", 4⟩

/-- A configuration with overwrite enabled. -/
def cfgOverwrite : Config := ⟨true, "Tableau_Projects", 4⟩

/-- An empty working directory. -/
def fsEmpty : FS := fun _ => none

/-- A working directory already holding one workbook file. -/
def fsOne : FS :=
  fun p => if p = "Tableau_Projects/Sales/Q1.twbx" then some [1, 2, 3] else none

/-- A server that delivers fixed bytes for every content id. -/
def srvOK : Server := ⟨fun _ => .ok [1, 2, 3], fun _ => .ok [9, 9]⟩

/-- A server that denies every workbook and fails every datasource. -/
def srvBad : Server := ⟨fun _ => .serverResponseError, fun _ => .otherError⟩

/-- A server that denies exactly workbook `"101"`. -/
def srvMixed : Server :=
  ⟨fun cid => if cid = "101" then .serverResponseError else .ok [1, 2, 3],
   fun _ => .ok [7]⟩

/-- A two-project index: root `"1"` (one workbook) with child `"2"`
(one datasource). -/
def idxSample : Index :=
  [("1", ⟨"Sales", [("Q1", "101")], [], ["2"]⟩),
   ("2", ⟨"Sales EMEA", [], [("Region", "201")], []⟩)]

/-- A rank function witnessing that `idxSample` is acyclic. -/
def rankSample : String → Nat := fun s => if s = "1" then 1 else 0

/-- A flat listing with exactly one parentless project. -/
def listingSample : List ProjInfo := [⟨"1", "Sales", none⟩, ⟨"2", "EMEA", some "1"⟩]

/-- The outcome of fetching workbook `Q1` into an empty directory. -/
def oQ1 : FetchOutcome :=
  ⟨Kind.workbook, "Q1", "101", "Tableau_Projects/Sales/Q1.twbx", true, none, false⟩

/-- The outcome of fetching datasource `Region` into an empty directory. -/
def oRegion : FetchOutcome :=
  ⟨Kind.datasource, "Region", "201", "Tableau_Projects/Sales_EMEA/Region.tdsx",
   true, none, false⟩

/-- The outcome of workbook `Q1` when the server denies access. -/
def oQ1denied : FetchOutcome :=
  ⟨Kind.workbook, "Q1", "101", "Tableau_Projects/Sales/Q1.twbx", false,
   some ErrKind.serverResponse, false⟩

/-- The trace of walking `idxSample` from root `"1"` over `fsEmpty` with
`srvOK`. -/
def trSample : List Event :=
  [Event.visit "1", Event.fetch oQ1, Event.visit "2", Event.fetch oRegion]

/-- The trace of the full run over `fsEmpty` with `srvMixed` (workbook
denied, datasource delivered), ending in the commit. -/
def trMixed : List Event :=
  [Event.visit "1", Event.fetch oQ1denied, Event.visit "2", Event.fetch oRegion,
   Event.commit]

/-! ## Helper lemmas -/

theorem lookup_mem {β : Type} {l : List (String × β)} {a : String} {b : β}
    (h : l.lookup a = some b) : (a, b) ∈ l := by
  induction l with
  | nil => simp [List.lookup] at h
  | cons e es ih =>
    obtain ⟨k, v⟩ := e
    rw [List.lookup] at h
    by_cases hk : a == k
    · simp only [hk] at h
      cases h
      simp only [List.mem_cons]
      exact Or.inl (by rw [(beq_iff_eq).mp hk])
    · simp only [Bool.not_eq_true] at hk
      simp only [hk] at h
      exact List.mem_cons_of_mem _ (ih h)

theorem md5hexdigest_ne_empty (msg : Bytes) : md5hexdigest msg ≠ "" := by
  intro h
  have h2 : (md5Bytes msg).flatMap byteToHex = [] := congrArg String.data h
  simp [md5Bytes, toBytesLE, byteToHex] at h2

theorem calculate_file_hash_write_same (fs : FS) (p : String) (contents : Bytes) :
    calculate_file_hash (writeFile fs p contents) p = md5hexdigest contents := by
  simp [calculate_file_hash, writeFile]

/-! ## Claims -/

/-- C5: the download decision returns `false` exactly when overwrite is
disabled and the target path already exists, and `true` in every other
case; the embedding is a pure function of the flag and the path's
existence (no side effects). -/
theorem C5_should_download_policy (cfg : Config) (fs : FS) (filepath content_id : String) :
    should_download_file cfg fs filepath content_id = false ↔
      (cfg.overwrite_existing = false ∧ (fs filepath).isSome = true) := by
  unfold should_download_file
  cases how : cfg.overwrite_existing <;> cases hfs : fs filepath <;> simp

/-- C10: the download decision is independent of the content identifier:
for a fixed configuration, filesystem and target path it returns the same
result for any two content ids. -/
theorem C10_decision_id_independent (cfg : Config) (fs : FS) (filepath id1 id2 : String) :
    should_download_file cfg fs filepath id1 = should_download_file cfg fs filepath id2 := rfl

/-- C6: fingerprinting is deterministic — byte-identical contents hash to
equal digests wherever and whenever they are read — the absent-file
sentinel is `""`, and the sentinel never equals the digest of any real
file's bytes. -/
theorem C6_fingerprint_deterministic_sentinel :
    (∀ (fs1 fs2 : FS) (p1 p2 : String) (contents : Bytes),
        fs1 p1 = some contents → fs2 p2 = some contents →
        calculate_file_hash fs1 p1 = calculate_file_hash fs2 p2) ∧
    (∀ (fs : FS) (p : String), fs p = none → calculate_file_hash fs p = "") ∧
    (∀ (fs : FS) (p : String) (contents : Bytes), fs p = some contents →
        calculate_file_hash fs p ≠ "") := by
  refine ⟨fun fs1 fs2 p1 p2 contents h1 h2 => ?_, fun fs p h => ?_,
    fun fs p contents h => ?_⟩
  · simp [calculate_file_hash, h1, h2]
  · simp [calculate_file_hash, h]
  · simp only [calculate_file_hash, h]
    exact md5hexdigest_ne_empty contents

/-- Witness for C6 at concrete inputs. -/
theorem C6_witness :
    calculate_file_hash fsOne "Tableau_Projects/Sales/Q1.twbx" =
      calculate_file_hash fsOne "Tableau_Projects/Sales/Q1.twbx" ∧
    calculate_file_hash fsOne "absent" = "" ∧
    calculate_file_hash fsOne "Tableau_Projects/Sales/Q1.twbx" ≠ "" :=
  ⟨C6_fingerprint_deterministic_sentinel.1 fsOne fsOne _ _ [1, 2, 3] (by decide) (by decide),
   C6_fingerprint_deterministic_sentinel.2.1 fsOne "absent" (by decide),
   C6_fingerprint_deterministic_sentinel.2.2 fsOne _ [1, 2, 3] (by decide)⟩

/-- C1: for a fetch the decision policy performs (not skipped), the reported
changed flag is `true` exactly when the digest fingerprinted before the
download differs from the digest of the target afterwards; in particular a
download delivering bytes identical to the file already on disk reports
`changed = false`. -/
theorem C1_changed_iff_digests_differ :
    (∀ (cfg : Config) (srv : Server) (fs : FS) (dir wid wname user : String),
      should_download_file cfg fs (dir ++ "/" ++ wname ++ ".twbx") wid = true →
      ((download_workbook cfg srv fs dir wid wname user).outcome.changed = true ↔
        calculate_file_hash fs (dir ++ "/" ++ wname ++ ".twbx") ≠
          calculate_file_hash (download_workbook cfg srv fs dir wid wname user).fs
            (dir ++ "/" ++ wname ++ ".twbx")) ∧
      (∀ contents, srv.workbooks wid = .ok contents →
        fs (dir ++ "/" ++ wname ++ ".twbx") = some contents →
        (download_workbook cfg srv fs dir wid wname user).outcome.changed = false)) ∧
    (∀ (cfg : Config) (srv : Server) (fs : FS) (dir did dname user : String),
      should_download_file cfg fs (dir ++ "/" ++ dname ++ ".tdsx") did = true →
      ((download_datasource cfg srv fs dir did dname user).outcome.changed = true ↔
        calculate_file_hash fs (dir ++ "/" ++ dname ++ ".tdsx") ≠
          calculate_file_hash (download_datasource cfg srv fs dir did dname user).fs
            (dir ++ "/" ++ dname ++ ".tdsx")) ∧
      (∀ contents, srv.datasources did = .ok contents →
        fs (dir ++ "/" ++ dname ++ ".tdsx") = some contents →
        (download_datasource cfg srv fs dir did dname user).outcome.changed = false)) := by
  constructor
  · intro cfg srv fs dir wid wname user hsd
    refine ⟨?_, ?_⟩
    · simp only [download_workbook, hsd]
      cases hw : srv.workbooks wid with
      | ok contents => simp [calculate_file_hash_write_same, bne_iff_ne]
      | serverResponseError => simp
      | otherError => simp
    · intro contents hw hfs
      simp only [download_workbook, hsd, hw]
      have h1 : calculate_file_hash fs (dir ++ "/" ++ wname ++ ".twbx") =
          md5hexdigest contents := by simp [calculate_file_hash, hfs]
      simp [calculate_file_hash_write_same, h1]
  · intro cfg srv fs dir did dname user hsd
    refine ⟨?_, ?_⟩
    · simp only [download_datasource, hsd]
      cases hw : srv.datasources did with
      | ok contents => simp [calculate_file_hash_write_same, bne_iff_ne]
      | serverResponseError => simp
      | otherError => simp
    · intro contents hw hfs
      simp only [download_datasource, hsd, hw]
      have h1 : calculate_file_hash fs (dir ++ "/" ++ dname ++ ".tdsx") =
          md5hexdigest contents := by simp [calculate_file_hash, hfs]
      simp [calculate_file_hash_write_same, h1]

/-- Witness for C1: into an empty directory the fetch reports a change;
re-fetching byte-identical content over the existing file reports none. -/
theorem C1_witness :
    (download_workbook cfgDefault srvOK fsEmpty "Tableau_Projects/Sales" "101" "Q1"
        "u").outcome.changed = true ∧
    (download_workbook cfgOverwrite srvOK fsOne "Tableau_Projects/Sales" "101" "Q1"
        "u").outcome.changed = false := by
  constructor
  · exact ((C1_changed_iff_digests_differ.1 cfgDefault srvOK fsEmpty "Tableau_Projects/Sales"
      "101" "Q1" "u" (by decide)).1).mpr (by decide)
  · exact (C1_changed_iff_digests_differ.1 cfgOverwrite srvOK fsOne "Tableau_Projects/Sales"
      "101" "Q1" "u" (by decide)).2 [1, 2, 3] (by decide) (by decide)

/-- C3, evidence of the divergence: `backup_tableau` builds `project_cache`
values holding only the keys `'name'` and `'parent_id'` — no children
identifiers and no owned content — while the traversal reads the keys in
`walker_required_keys` from each entry; only the derived root count part of
the claim holds (exactly one parentless project yields exactly one root). -/
theorem C3_cache_entries_lack_children_and_content :
    (root_projects listingSample).length = 1 ∧
    ((project_cache_of listingSample).lookup "1").map
        (fun e => walker_required_keys.all (fun k => (e.lookup k).isNone)) = some true ∧
    ((project_cache_of listingSample).lookup "1").map
        (fun e => ((e.lookup "name").isSome, (e.lookup "parent_id").isSome)) =
      some (true, true) := by decide

/-! ## Helper lemmas about the fetcher's task loop -/

theorem download_workbook_fields (cfg : Config) (srv : Server) (fs : FS)
    (dir cid name user : String) :
    (download_workbook cfg srv fs dir cid name user).outcome.kind = Kind.workbook ∧
    (download_workbook cfg srv fs dir cid name user).outcome.name = name ∧
    (download_workbook cfg srv fs dir cid name user).outcome.contentId = cid ∧
    (download_workbook cfg srv fs dir cid name user).outcome.filepath =
      dir ++ "/" ++ name ++ ".twbx" := by
  simp only [download_workbook]
  split
  · exact ⟨rfl, rfl, rfl, rfl⟩
  · split <;> exact ⟨rfl, rfl, rfl, rfl⟩

theorem download_datasource_fields (cfg : Config) (srv : Server) (fs : FS)
    (dir cid name user : String) :
    (download_datasource cfg srv fs dir cid name user).outcome.kind = Kind.datasource ∧
    (download_datasource cfg srv fs dir cid name user).outcome.name = name ∧
    (download_datasource cfg srv fs dir cid name user).outcome.contentId = cid ∧
    (download_datasource cfg srv fs dir cid name user).outcome.filepath =
      dir ++ "/" ++ name ++ ".tdsx" := by
  simp only [download_datasource]
  split
  · exact ⟨rfl, rfl, rfl, rfl⟩
  · split <;> exact ⟨rfl, rfl, rfl, rfl⟩

theorem run_tasks_commit_count (cfg : Config) (srv : Server) (d u : String)
    (ts : List (Kind × String × String)) : ∀ fs : FS,
    commit_count (run_download_tasks cfg srv d u ts fs).2 = 0 := by
  induction ts with
  | nil => intro fs; simp [run_download_tasks, commit_count]
  | cons t ts ih =>
    intro fs
    obtain ⟨k, n, i⟩ := t
    cases k <;> simp [run_download_tasks, commit_count, List.countP_cons] <;>
      simpa [commit_count] using ih _

theorem run_tasks_visit_count (cfg : Config) (srv : Server) (d u x : String)
    (ts : List (Kind × String × String)) : ∀ fs : FS,
    visit_count x (run_download_tasks cfg srv d u ts fs).2 = 0 := by
  induction ts with
  | nil => intro fs; simp [run_download_tasks, visit_count]
  | cons t ts ih =>
    intro fs
    obtain ⟨k, n, i⟩ := t
    cases k <;> simp [run_download_tasks, visit_count, List.countP_cons] <;>
      simpa [visit_count] using ih _

theorem run_tasks_outcome_count (cfg : Config) (srv : Server) (d u : String)
    (ts : List (Kind × String × String)) : ∀ fs : FS,
    (fetch_outcomes (run_download_tasks cfg srv d u ts fs).2).length = ts.length := by
  induction ts with
  | nil => intro fs; simp [run_download_tasks, fetch_outcomes]
  | cons t ts ih =>
    intro fs
    obtain ⟨k, n, i⟩ := t
    cases k <;> simp [run_download_tasks, fetch_outcomes, List.filterMap_cons] <;>
      simpa [fetch_outcomes] using ih _

theorem run_tasks_shape (cfg : Config) (srv : Server) (d u : String)
    (ts : List (Kind × String × String)) : ∀ fs : FS,
    ∀ o ∈ fetch_outcomes (run_download_tasks cfg srv d u ts fs).2,
      o.filepath = d ++ "/" ++ o.name ++ extOf o.kind ∧ (o.kind, o.name, o.contentId) ∈ ts := by
  induction ts with
  | nil => intro fs o ho; simp [run_download_tasks, fetch_outcomes] at ho
  | cons t ts ih =>
    intro fs o ho
    obtain ⟨k, n, i⟩ := t
    simp only [run_download_tasks, fetch_outcomes, List.filterMap_cons] at ho
    rw [List.mem_cons] at ho
    rcases ho with ho | ho
    · subst ho
      cases k with
      | workbook =>
        obtain ⟨h1, h2, h3, h4⟩ := download_workbook_fields cfg srv fs d i n u
        refine ⟨?_, ?_⟩
        · rw [h1, h2, h4]; rfl
        · rw [h1, h2, h3]; exact List.mem_cons_self _ _
      | datasource =>
        obtain ⟨h1, h2, h3, h4⟩ := download_datasource_fields cfg srv fs d i n u
        refine ⟨?_, ?_⟩
        · rw [h1, h2, h4]; rfl
        · rw [h1, h2, h3]; exact List.mem_cons_self _ _
    · obtain ⟨hA, hB⟩ := ih _ o ho
      exact ⟨hA, List.mem_cons_of_mem _ hB⟩

/-! ## Unfolding equations for the walker -/

theorem cafcd_zero (cfg : Config) (srv : Server) (idx : Index) (bd cid un : String)
    (fs : FS) : create_and_fill_child_dir 0 cfg srv idx bd cid un fs = none := rfl

theorem foldl_walk_step_none (dl : String → FS → Option (FS × List Event))
    (cs : List String) : cs.foldl (walk_step dl) none = none := by
  induction cs with
  | nil => rfl
  | cons c cs ih => simpa [walk_step] using ih

theorem foldl_walk_step_shift (dl : String → FS → Option (FS × List Event))
    (cs : List String) : ∀ (fs : FS) (tr0 : List Event),
    cs.foldl (walk_step dl) (some (fs, tr0)) =
      (cs.foldl (walk_step dl) (some (fs, []))).map (fun q => (q.1, tr0 ++ q.2)) := by
  induction cs with
  | nil => intro fs tr0; simp
  | cons c cs ih =>
    intro fs tr0
    cases hd : dl c fs with
    | none => simp [List.foldl_cons, walk_step, hd, foldl_walk_step_none]
    | some p =>
      obtain ⟨fs2, tr2⟩ := p
      simp only [List.foldl_cons, walk_step, hd, List.nil_append]
      rw [ih fs2 (tr0 ++ tr2), ih fs2 tr2]
      cases cs.foldl (walk_step dl) (some (fs2, [])) with
      | none => rfl
      | some q =>
        obtain ⟨qf, qt⟩ := q
        simp [List.append_assoc]

theorem cafcd_succ (f : Nat) (cfg : Config) (srv : Server) (idx : Index)
    (bd cid un : String) (fs : FS) :
    create_and_fill_child_dir (f + 1) cfg srv idx bd cid un fs =
      match idx.lookup cid with
      | none => some (fs, [])
      | some proj =>
        let r := process_project_content cfg srv proj bd un fs
        match walk_children f cfg srv idx bd un proj.ChildDirs r.1 with
        | none => none
        | some (fs2, tr2) => some (fs2, Event.visit cid :: r.2 ++ tr2) := rfl

theorem walk_children_nil (fuel : Nat) (cfg : Config) (srv : Server) (idx : Index)
    (bd un : String) (fs : FS) :
    walk_children fuel cfg srv idx bd un [] fs = some (fs, []) := rfl

theorem walk_children_cons (fuel : Nat) (cfg : Config) (srv : Server) (idx : Index)
    (bd un c : String) (cs : List String) (fs : FS) :
    walk_children fuel cfg srv idx bd un (c :: cs) fs =
      match create_and_fill_child_dir fuel cfg srv idx bd c un fs with
      | none => none
      | some (fs1, tr1) =>
        match walk_children fuel cfg srv idx bd un cs fs1 with
        | none => none
        | some (fs2, tr2) => some (fs2, tr1 ++ tr2) := by
  unfold walk_children
  simp only [List.foldl_cons]
  cases hc : create_and_fill_child_dir fuel cfg srv idx bd c un fs with
  | none => simp [walk_step, hc, foldl_walk_step_none]
  | some p =>
    obtain ⟨fs1, tr1⟩ := p
    simp only [walk_step, hc, List.nil_append]
    rw [foldl_walk_step_shift]
    cases (cs.foldl (walk_step fun c fs1 =>
        create_and_fill_child_dir fuel cfg srv idx bd c un fs1) (some (fs1, []))) with
    | none => rfl
    | some q =>
      obtain ⟨qf, qt⟩ := q
      rfl

theorem cafcd_succ_none (f : Nat) (cfg : Config) (srv : Server) (idx : Index)
    (bd cid un : String) (fs : FS) (hl : idx.lookup cid = none) :
    create_and_fill_child_dir (f + 1) cfg srv idx bd cid un fs = some (fs, []) := by
  simp [cafcd_succ, hl]

theorem cafcd_succ_some (f : Nat) (cfg : Config) (srv : Server) (idx : Index)
    (bd cid un : String) (fs : FS) (proj : Project)
    (hl : idx.lookup cid = some proj) :
    create_and_fill_child_dir (f + 1) cfg srv idx bd cid un fs =
      (walk_children f cfg srv idx bd un proj.ChildDirs
          (process_project_content cfg srv proj bd un fs).1).map
        (fun q => (q.1, Event.visit cid ::
            (process_project_content cfg srv proj bd un fs).2 ++ q.2)) := by
  simp only [cafcd_succ, hl]
  cases walk_children f cfg srv idx bd un proj.ChildDirs
      (process_project_content cfg srv proj bd un fs).1 with
  | none => rfl
  | some p => cases p; rfl

theorem walk_children_cons_some (fuel : Nat) (cfg : Config) (srv : Server)
    (idx : Index) (bd un c : String) (cs : List String) (fs fs1 : FS)
    (tr1 : List Event)
    (h1 : create_and_fill_child_dir fuel cfg srv idx bd c un fs = some (fs1, tr1)) :
    walk_children fuel cfg srv idx bd un (c :: cs) fs =
      (walk_children fuel cfg srv idx bd un cs fs1).map
        (fun q => (q.1, tr1 ++ q.2)) := by
  cases hw : walk_children fuel cfg srv idx bd un cs fs1 with
  | none => simp [walk_children_cons, h1, hw]
  | some p => obtain ⟨a, b⟩ := p; simp [walk_children_cons, h1, hw]

theorem walk_children_cons_none (fuel : Nat) (cfg : Config) (srv : Server)
    (idx : Index) (bd un c : String) (cs : List String) (fs : FS)
    (h1 : create_and_fill_child_dir fuel cfg srv idx bd c un fs = none) :
    walk_children fuel cfg srv idx bd un (c :: cs) fs = none := by
  rw [walk_children_cons, h1]

theorem commit_count_append (a b : List Event) :
    commit_count (a ++ b) = commit_count a + commit_count b :=
  List.countP_append _ _ _

theorem commit_count_visit_cons (pid : String) (tr : List Event) :
    commit_count (Event.visit pid :: tr) = commit_count tr := by
  simp [commit_count, List.countP_cons]

theorem visit_count_append (x : String) (a b : List Event) :
    visit_count x (a ++ b) = visit_count x a + visit_count x b :=
  List.countP_append _ _ _

theorem visit_count_visit_cons (x pid : String) (tr : List Event) :
    visit_count x (Event.visit pid :: tr) =
      visit_count x tr + (if pid = x then 1 else 0) := by
  simp [visit_count, List.countP_cons]

/-- Neither the walker nor the fetcher emits a commit event: the only
commit of a run is the one appended by the committer. -/
theorem walk_no_commit (cfg : Config) (srv : Server) (idx : Index) (bd un : String) :
    ∀ fuel : Nat,
    (∀ (cid : String) (fs fs' : FS) (tr : List Event),
        create_and_fill_child_dir fuel cfg srv idx bd cid un fs = some (fs', tr) →
        commit_count tr = 0) ∧
    (∀ (cs : List String) (fs fs' : FS) (tr : List Event),
        walk_children fuel cfg srv idx bd un cs fs = some (fs', tr) →
        commit_count tr = 0) := by
  intro fuel
  induction fuel with
  | zero =>
    constructor
    · intro cid fs fs' tr h
      rw [cafcd_zero] at h
      simp at h
    · intro cs fs fs' tr h
      cases cs with
      | nil =>
        rw [walk_children_nil, Option.some.injEq, Prod.mk.injEq] at h
        obtain ⟨h1, h2⟩ := h
        subst h2
        rfl
      | cons c cs =>
        rw [walk_children_cons, cafcd_zero] at h
        simp at h
  | succ f ih =>
    have hp : ∀ (cid : String) (fs fs' : FS) (tr : List Event),
        create_and_fill_child_dir (f + 1) cfg srv idx bd cid un fs = some (fs', tr) →
        commit_count tr = 0 := by
      intro cid fs fs' tr h
      cases hl : idx.lookup cid with
      | none =>
        rw [cafcd_succ_none f cfg srv idx bd cid un fs hl, Option.some.injEq,
          Prod.mk.injEq] at h
        obtain ⟨h1, h2⟩ := h
        subst h2
        rfl
      | some proj =>
        rw [cafcd_succ_some f cfg srv idx bd cid un fs proj hl] at h
        cases hw : walk_children f cfg srv idx bd un proj.ChildDirs
            (process_project_content cfg srv proj bd un fs).1 with
        | none => rw [hw] at h; simp at h
        | some p =>
          obtain ⟨fs2, tr2⟩ := p
          rw [hw] at h
          simp only [Option.map_some'] at h
          rw [Option.some.injEq, Prod.mk.injEq] at h
          obtain ⟨h1, h2⟩ := h
          subst h2
          have hr : commit_count (process_project_content cfg srv proj bd un fs).2 = 0 := by
            simp only [process_project_content]
            exact run_tasks_commit_count cfg srv _ un (download_tasks proj) fs
          have ht : commit_count tr2 = 0 := ih.2 proj.ChildDirs _ fs2 tr2 hw
          simp [commit_count_visit_cons, commit_count_append, hr, ht]
    refine ⟨hp, ?_⟩
    intro cs
    induction cs with
    | nil =>
      intro fs fs' tr h
      rw [walk_children_nil, Option.some.injEq, Prod.mk.injEq] at h
      obtain ⟨h1, h2⟩ := h
      subst h2
      rfl
    | cons c cs ihcs =>
      intro fs fs' tr h
      cases h1 : create_and_fill_child_dir (f + 1) cfg srv idx bd c un fs with
      | none => rw [walk_children_cons_none _ _ _ _ _ _ _ _ _ h1] at h; simp at h
      | some p =>
        obtain ⟨fs1, tr1⟩ := p
        rw [walk_children_cons_some _ _ _ _ _ _ _ _ _ _ _ h1] at h
        cases h2 : walk_children (f + 1) cfg srv idx bd un cs fs1 with
        | none => rw [h2] at h; simp at h
        | some q =>
          obtain ⟨fs2, tr2⟩ := q
          rw [h2] at h
          simp only [Option.map_some'] at h
          rw [Option.some.injEq, Prod.mk.injEq] at h
          obtain ⟨hA, hB⟩ := h
          subst hB
          simp [commit_count_append, hp c fs fs1 tr1 h1, ihcs fs1 fs2 tr2 h2]

/-- C4: in every run that completes, the snapshot committer runs exactly
once, and only at the very end of the event order — after every fetch of
every root traversal has settled (the `as_completed` join over all root
futures is a full barrier; lines 227-233). -/
theorem C4_commit_once_after_barrier (fuel : Nat) (cfg : Config) (srv : Server)
    (idx : Index) (roots : List String) (user : String) (fs fs' : FS)
    (tr : List Event)
    (hrun : backup_tableau_run fuel cfg srv idx roots user fs = some (fs', tr)) :
    commit_count tr = 1 ∧ tr.getLast? = some Event.commit := by
  unfold backup_tableau_run at hrun
  cases hw : walk_children fuel cfg srv idx cfg.base_dir user roots fs with
  | none => rw [hw] at hrun; simp at hrun
  | some p =>
    obtain ⟨fs1, tr1⟩ := p
    rw [hw] at hrun
    simp only [Option.some.injEq, Prod.mk.injEq] at hrun
    obtain ⟨h1, h2⟩ := hrun
    subst h2
    constructor
    · rw [commit_count_append,
        (walk_no_commit cfg srv idx cfg.base_dir user fuel).2 roots fs fs1 tr1 hw]
      rfl
    · exact List.getLast?_concat _

/-- Witness for C4 on a concrete two-project run. -/
theorem C4_witness :
    commit_count ((backup_tableau_run 3 cfgDefault srvOK idxSample ["1"] "u"
        fsEmpty).elim [] Prod.snd) = 1 ∧
    ((backup_tableau_run 3 cfgDefault srvOK idxSample ["1"] "u"
        fsEmpty).elim [] Prod.snd).getLast? = some Event.commit := by
  have hs : (backup_tableau_run 3 cfgDefault srvOK idxSample ["1"] "u"
      fsEmpty).isSome = true := by decide
  obtain ⟨⟨fs', tr⟩, hr⟩ := Option.isSome_iff_exists.mp hs
  rw [hr]
  simpa using C4_commit_once_after_barrier 3 cfgDefault srvOK idxSample ["1"] "u"
    fsEmpty fs' tr hr

/-- With enough fuel for the forest's height — witnessed by a rank function
decreasing from parent to child — the walker never exhausts its fuel. -/
theorem walk_total (cfg : Config) (srv : Server) (idx : Index) (bd un : String)
    (rank : String → Nat)
    (h1 : ∀ e ∈ idx, ∀ c ∈ e.2.ChildDirs, rank c < rank e.1) :
    ∀ fuel : Nat,
    (∀ cid, rank cid < fuel → ∀ fs : FS,
        (create_and_fill_child_dir fuel cfg srv idx bd cid un fs).isSome = true) ∧
    (∀ cs : List String, (∀ c ∈ cs, rank c < fuel) → ∀ fs : FS,
        (walk_children fuel cfg srv idx bd un cs fs).isSome = true) := by
  intro fuel
  induction fuel with
  | zero =>
    refine ⟨fun cid h => absurd h (Nat.not_lt_zero _), fun cs hc fs => ?_⟩
    cases cs with
    | nil => rw [walk_children_nil]; rfl
    | cons c cs => exact absurd (hc c (List.mem_cons_self c cs)) (Nat.not_lt_zero _)
  | succ f ih =>
    have hp : ∀ cid, rank cid < f + 1 → ∀ fs : FS,
        (create_and_fill_child_dir (f + 1) cfg srv idx bd cid un fs).isSome = true := by
      intro cid hcid fs
      cases hl : idx.lookup cid with
      | none => rw [cafcd_succ_none f cfg srv idx bd cid un fs hl]; rfl
      | some proj =>
        rw [cafcd_succ_some f cfg srv idx bd cid un fs proj hl]
        have hch : ∀ c ∈ proj.ChildDirs, rank c < f := by
          intro c hc
          have h2 : rank c < rank cid := h1 (cid, proj) (lookup_mem hl) c hc
          omega
        have hk := ih.2 proj.ChildDirs hch (process_project_content cfg srv proj bd un fs).1
        cases hw : walk_children f cfg srv idx bd un proj.ChildDirs
            (process_project_content cfg srv proj bd un fs).1 with
        | none => rw [hw] at hk; simp at hk
        | some p => rfl
    refine ⟨hp, ?_⟩
    intro cs
    induction cs with
    | nil => intro hc fs; rw [walk_children_nil]; rfl
    | cons c cs ihcs =>
      intro hc fs
      have hone := hp c (hc c (List.mem_cons_self c cs)) fs
      cases hc1 : create_and_fill_child_dir (f + 1) cfg srv idx bd c un fs with
      | none => rw [hc1] at hone; simp at hone
      | some p =>
        obtain ⟨fs1, tr1⟩ := p
        rw [walk_children_cons_some _ _ _ _ _ _ _ _ _ _ _ hc1]
        have hrest := ihcs (fun c' hc' => hc c' (List.mem_cons_of_mem _ hc')) fs1
        cases h2 : walk_children (f + 1) cfg srv idx bd un cs fs1 with
        | none => rw [h2] at hrest; simp at hrest
        | some q => rfl

/-- C9: if the index's parent/child edges form an acyclic forest — witnessed
by a rank function strictly decreasing along every child edge — then the
depth-unbounded recursive traversal from any start id terminates: any fuel
beyond the start's rank is never exhausted. -/
theorem C9_walk_terminates (cfg : Config) (srv : Server) (idx : Index)
    (bd un : String) (rank : String → Nat)
    (h1 : ∀ e ∈ idx, ∀ c ∈ e.2.ChildDirs, rank c < rank e.1)
    (fuel : Nat) (cid : String) (hf : rank cid < fuel) (fs : FS) :
    (create_and_fill_child_dir fuel cfg srv idx bd cid un fs).isSome = true :=
  (walk_total cfg srv idx bd un rank h1 fuel).1 cid hf fs

/-- Witness for C9 on the concrete two-level index. -/
theorem C9_witness :
    (create_and_fill_child_dir 2 cfgDefault srvOK idxSample "Tableau_Projects" "1"
        "u" fsEmpty).isSome = true :=
  C9_walk_terminates cfgDefault srvOK idxSample "Tableau_Projects" "u" rankSample
    (by decide) 2 "1" (by decide) fsEmpty

theorem fetch_outcomes_append (a b : List Event) :
    fetch_outcomes (a ++ b) = fetch_outcomes a ++ fetch_outcomes b := by
  simp [fetch_outcomes]

theorem fetch_outcomes_visit_cons (pid : String) (tr : List Event) :
    fetch_outcomes (Event.visit pid :: tr) = fetch_outcomes tr := by
  simp [fetch_outcomes]

theorem mem_download_tasks (proj : Project) (k : Kind) (n i : String) :
    (k, n, i) ∈ download_tasks proj ↔
      ((k = Kind.workbook ∧ (n, i) ∈ proj.Workbooks) ∨
       (k = Kind.datasource ∧ (n, i) ∈ proj.Datasources)) := by
  cases k <;> simp [download_tasks, List.mem_append, List.mem_map, Prod.ext_iff]

/-- Every fetch recorded during a walk targets the flat path of the visited
project that owns the content item. -/
theorem walk_fetch_shape (cfg : Config) (srv : Server) (idx : Index) (bd un : String) :
    ∀ fuel : Nat,
    (∀ (cid : String) (fs fs' : FS) (tr : List Event),
        create_and_fill_child_dir fuel cfg srv idx bd cid un fs = some (fs', tr) →
        ∀ o ∈ fetch_outcomes tr, OutcomePlaced idx bd tr o) ∧
    (∀ (cs : List String) (fs fs' : FS) (tr : List Event),
        walk_children fuel cfg srv idx bd un cs fs = some (fs', tr) →
        ∀ o ∈ fetch_outcomes tr, OutcomePlaced idx bd tr o) := by
  intro fuel
  induction fuel with
  | zero =>
    constructor
    · intro cid fs fs' tr h
      rw [cafcd_zero] at h
      simp at h
    · intro cs fs fs' tr h
      cases cs with
      | nil =>
        rw [walk_children_nil, Option.some.injEq, Prod.mk.injEq] at h
        obtain ⟨h1, h2⟩ := h
        subst h2
        intro o ho
        simp [fetch_outcomes] at ho
      | cons c cs =>
        rw [walk_children_cons, cafcd_zero] at h
        simp at h
  | succ f ih =>
    have hp : ∀ (cid : String) (fs fs' : FS) (tr : List Event),
        create_and_fill_child_dir (f + 1) cfg srv idx bd cid un fs = some (fs', tr) →
        ∀ o ∈ fetch_outcomes tr, OutcomePlaced idx bd tr o := by
      intro cid fs fs' tr h
      cases hl : idx.lookup cid with
      | none =>
        rw [cafcd_succ_none f cfg srv idx bd cid un fs hl, Option.some.injEq,
          Prod.mk.injEq] at h
        obtain ⟨h1, h2⟩ := h
        subst h2
        intro o ho
        simp [fetch_outcomes] at ho
      | some proj =>
        rw [cafcd_succ_some f cfg srv idx bd cid un fs proj hl] at h
        cases hw : walk_children f cfg srv idx bd un proj.ChildDirs
            (process_project_content cfg srv proj bd un fs).1 with
        | none => rw [hw] at h; simp at h
        | some p =>
          obtain ⟨fs2, tr2⟩ := p
          rw [hw] at h
          simp only [Option.map_some'] at h
          rw [Option.some.injEq, Prod.mk.injEq] at h
          obtain ⟨h1, h2⟩ := h
          subst h2
          intro o ho
          rw [fetch_outcomes_append, fetch_outcomes_visit_cons, List.mem_append] at ho
          rcases ho with ho | ho
          · simp only [process_project_content] at ho
            obtain ⟨hfp, hmem⟩ := run_tasks_shape cfg srv
              (bd ++ "/" ++ sanitize proj.Name) un (download_tasks proj) fs o ho
            exact ⟨cid, proj, hl, List.mem_append_left _ (List.mem_cons_self _ _), hfp,
              (mem_download_tasks proj o.kind o.name o.contentId).mp hmem⟩
          · obtain ⟨pid, prj, hpl, hvm, hrest⟩ := ih.2 proj.ChildDirs _ fs2 tr2 hw o ho
            exact ⟨pid, prj, hpl, List.mem_append_right _ hvm, hrest⟩
    refine ⟨hp, ?_⟩
    intro cs
    induction cs with
    | nil =>
      intro fs fs' tr h
      rw [walk_children_nil, Option.some.injEq, Prod.mk.injEq] at h
      obtain ⟨h1, h2⟩ := h
      subst h2
      intro o ho
      simp [fetch_outcomes] at ho
    | cons c cs ihcs =>
      intro fs fs' tr h
      cases h1 : create_and_fill_child_dir (f + 1) cfg srv idx bd c un fs with
      | none => rw [walk_children_cons_none _ _ _ _ _ _ _ _ _ h1] at h; simp at h
      | some p =>
        obtain ⟨fs1, tr1⟩ := p
        rw [walk_children_cons_some _ _ _ _ _ _ _ _ _ _ _ h1] at h
        cases h2 : walk_children (f + 1) cfg srv idx bd un cs fs1 with
        | none => rw [h2] at h; simp at h
        | some q =>
          obtain ⟨fs2, tr2⟩ := q
          rw [h2] at h
          simp only [Option.map_some'] at h
          rw [Option.some.injEq, Prod.mk.injEq] at h
          obtain ⟨hA, hB⟩ := h
          subst hB
          intro o ho
          rw [fetch_outcomes_append, List.mem_append] at ho
          rcases ho with ho | ho
          · obtain ⟨pid, prj, hpl, hvm, hrest⟩ := hp c fs fs1 tr1 h1 o ho
            exact ⟨pid, prj, hpl, List.mem_append_left _ hvm, hrest⟩
          · obtain ⟨pid, prj, hpl, hvm, hrest⟩ := ihcs fs1 fs2 tr2 h2 o ho
            exact ⟨pid, prj, hpl, List.mem_append_right _ hvm, hrest⟩

/-- C7: every file fetched by a traversal, for a project at any depth, is
placed directly under the base directory at
`baseDir/<project name with spaces replaced by underscores>/<content
name>.<ext>`, with `ext` `twbx` for workbooks and `tdsx` for datasources
(`extOf`); since the same base directory is passed to every recursive
child call, children materialize as siblings of their parent's directory
under the base directory, never nested inside it. -/
theorem C7_flat_layout (cfg : Config) (srv : Server) (idx : Index)
    (bd un cid : String) (fuel : Nat) (fs fs' : FS) (tr : List Event)
    (hrun : create_and_fill_child_dir fuel cfg srv idx bd cid un fs = some (fs', tr))
    (o : FetchOutcome) (ho : o ∈ fetch_outcomes tr) : OutcomePlaced idx bd tr o :=
  (walk_fetch_shape cfg srv idx bd un fuel).1 cid fs fs' tr hrun o ho

/-- Witness for C7: in the concrete run the child project's datasource
lands at `Tableau_Projects/Sales_EMEA/Region.tdsx` — a sibling of
`Tableau_Projects/Sales`, not nested inside it. -/
theorem C7_witness : OutcomePlaced idxSample "Tableau_Projects" trSample oRegion := by
  have hs : (create_and_fill_child_dir 3 cfgDefault srvOK idxSample "Tableau_Projects"
      "1" "u" fsEmpty).isSome = true := by decide
  obtain ⟨⟨fs', tr⟩, hr⟩ := Option.isSome_iff_exists.mp hs
  have htr : (create_and_fill_child_dir 3 cfgDefault srvOK idxSample "Tableau_Projects"
      "1" "u" fsEmpty).map Prod.snd = some trSample := by decide
  rw [hr] at htr
  simp only [Option.map_some'] at htr
  rw [Option.some.injEq] at htr
  rw [← htr]
  exact C7_flat_layout cfgDefault srvOK idxSample "Tableau_Projects" "u" "1" 3
    fsEmpty fs' tr hr oRegion (by rw [htr]; decide)

/-! ## Reachability lemmas (the forest structure of the index) -/

theorem reaches_lookup {idx : Index} {a b : String} (h : Reaches idx a b) :
    ∃ proj, idx.lookup a = some proj := by
  induction h with
  | refl proj hc => exact ⟨proj, hc⟩
  | step h1 h2 h3 h4 => assumption

theorem reaches_rank {idx : Index} {rank : String → Nat}
    (hrk : ∀ e ∈ idx, ∀ c ∈ e.2.ChildDirs, rank c < rank e.1)
    {a b : String} (h : Reaches idx a b) : rank b ≤ rank a := by
  induction h with
  | refl proj hc => exact le_refl _
  | @step p x proj projx h1 h2 h3 h4 ih =>
    have hlt : rank x < rank p := hrk (p, proj) (lookup_mem h2) x h3
    omega

theorem reaches_lookup_target {idx : Index} {a b : String} (h : Reaches idx a b) :
    ∃ proj, idx.lookup b = some proj := by
  cases h with
  | refl proj hc => exact ⟨proj, hc⟩
  | step h1 h2 h3 h4 => exact ⟨_, h4⟩

theorem reaches_trans_child {idx : Index} {a c b : String} {proj : Project}
    (ha : idx.lookup a = some proj) (hc : c ∈ proj.ChildDirs)
    (h : Reaches idx c b) : Reaches idx a b := by
  induction h with
  | refl proj2 hc2 => exact Reaches.step (Reaches.refl proj ha) ha hc hc2
  | step h1 h2 h3 h4 ih => exact Reaches.step ih h2 h3 h4

theorem reaches_decompose {idx : Index} {a b : String} (h : Reaches idx a b) :
    a = b ∨ ∃ c proj, idx.lookup a = some proj ∧ c ∈ proj.ChildDirs ∧
      Reaches idx c b := by
  induction h with
  | refl proj hc => exact Or.inl rfl
  | @step p x proj projx h1 h2 h3 h4 ih =>
    rcases ih with rfl | ⟨c, prj, hc1, hc2, hr⟩
    · exact Or.inr ⟨x, proj, h2, h3, Reaches.refl projx h4⟩
    · exact Or.inr ⟨c, prj, hc1, hc2, Reaches.step hr h2 h3 h4⟩

theorem reaches_common {idx : Index}
    (hup : ∀ p1 p2 proj1 proj2 y, idx.lookup p1 = some proj1 →
      idx.lookup p2 = some proj2 → y ∈ proj1.ChildDirs → y ∈ proj2.ChildDirs →
      p1 = p2)
    {c1 c2 : String} : ∀ x, Reaches idx c1 x → Reaches idx c2 x →
      c1 = c2 ∨ Reaches idx c1 c2 ∨ Reaches idx c2 c1 := by
  intro x h1
  induction h1 with
  | refl proj hc => intro h2; exact Or.inr (Or.inr h2)
  | @step p x proj projx hr hp hx hxl ih =>
    intro h2
    cases h2 with
    | refl proj2 hc2 => exact Or.inr (Or.inl (Reaches.step hr hp hx hxl))
    | @step p' x' proj' projx' hr2 hp' hx' =>
      have hpe : p = p' := hup p p' proj proj' _ hp hp' hx hx'
      subst hpe
      exact ih hr2

theorem reaches_sibling_eq {idx : Index} {rank : String → Nat}
    (hrk : ∀ e ∈ idx, ∀ c ∈ e.2.ChildDirs, rank c < rank e.1)
    (hup : ∀ p1 p2 proj1 proj2 y, idx.lookup p1 = some proj1 →
      idx.lookup p2 = some proj2 → y ∈ proj1.ChildDirs → y ∈ proj2.ChildDirs →
      p1 = p2)
    {cid c1 c2 : String} {proj : Project} (hl : idx.lookup cid = some proj)
    (h1 : c1 ∈ proj.ChildDirs) (h2 : c2 ∈ proj.ChildDirs)
    (hr : Reaches idx c1 c2) : c1 = c2 := by
  cases hr with
  | refl proj2 hc2 => rfl
  | @step p x proj2 projx hr2 hp hx hxl =>
    have hpe : p = cid := hup p cid proj2 proj _ hp hl hx h2
    subst hpe
    have hle : rank p ≤ rank c1 := reaches_rank hrk hr2
    have hlt : rank c1 < rank p := hrk (p, proj) (lookup_mem hl) c1 h1
    omega

theorem reaches_sibling_disjoint {idx : Index} {rank : String → Nat}
    (hrk : ∀ e ∈ idx, ∀ c ∈ e.2.ChildDirs, rank c < rank e.1)
    (hup : ∀ p1 p2 proj1 proj2 y, idx.lookup p1 = some proj1 →
      idx.lookup p2 = some proj2 → y ∈ proj1.ChildDirs → y ∈ proj2.ChildDirs →
      p1 = p2)
    {cid c1 c2 : String} {proj : Project} (hl : idx.lookup cid = some proj)
    (h1 : c1 ∈ proj.ChildDirs) (h2 : c2 ∈ proj.ChildDirs) (hne : c1 ≠ c2) :
    ∀ y, ¬ (Reaches idx c1 y ∧ Reaches idx c2 y) := by
  intro y ⟨ha, hb⟩
  rcases reaches_common hup y ha hb with he | hr | hr
  · exact hne he
  · exact hne (reaches_sibling_eq hrk hup hl h1 h2 hr)
  · exact hne ((reaches_sibling_eq hrk hup hl h2 h1 hr).symm)

theorem reaches_notchild_eq {idx : Index} {c r : String}
    (hnc : ∀ e ∈ idx, r ∉ e.2.ChildDirs) (h : Reaches idx c r) : c = r := by
  cases h with
  | refl proj hc => rfl
  | @step p x proj projx hr2 hp hx hxl => exact absurd hx (hnc (p, proj) (lookup_mem hp))

theorem reaches_roots_disjoint {idx : Index}
    (hup : ∀ p1 p2 proj1 proj2 y, idx.lookup p1 = some proj1 →
      idx.lookup p2 = some proj2 → y ∈ proj1.ChildDirs → y ∈ proj2.ChildDirs →
      p1 = p2)
    {r1 r2 : String} (h1 : ∀ e ∈ idx, r1 ∉ e.2.ChildDirs)
    (h2 : ∀ e ∈ idx, r2 ∉ e.2.ChildDirs) (hne : r1 ≠ r2) :
    ∀ y, ¬ (Reaches idx r1 y ∧ Reaches idx r2 y) := by
  intro y ⟨ha, hb⟩
  rcases reaches_common hup y ha hb with he | hr | hr
  · exact hne he
  · exact hne (reaches_notchild_eq h2 hr)
  · exact hne ((reaches_notchild_eq h1 hr).symm)

/-- Visit multiplicities of a walk: every project reachable from the start
is visited exactly once, every other id never. -/
theorem walk_visit_count (cfg : Config) (srv : Server) (idx : Index) (bd un : String)
    (rank : String → Nat)
    (hrk : ∀ e ∈ idx, ∀ c ∈ e.2.ChildDirs, rank c < rank e.1)
    (hnd : ∀ e ∈ idx, e.2.ChildDirs.Nodup)
    (hup : ∀ e1 ∈ idx, ∀ e2 ∈ idx, ∀ c ∈ e1.2.ChildDirs,
        c ∈ e2.2.ChildDirs → e1.1 = e2.1) :
    ∀ fuel : Nat,
    (∀ (cid : String) (fs fs' : FS) (tr : List Event),
        create_and_fill_child_dir fuel cfg srv idx bd cid un fs = some (fs', tr) →
        ∀ x, (Reaches idx cid x → visit_count x tr = 1) ∧
             (¬ Reaches idx cid x → visit_count x tr = 0)) ∧
    (∀ (cs : List String) (fs fs' : FS) (tr : List Event),
        (∀ c1 ∈ cs, ∀ c2 ∈ cs, c1 ≠ c2 → ∀ y,
            ¬ (Reaches idx c1 y ∧ Reaches idx c2 y)) →
        cs.Nodup →
        walk_children fuel cfg srv idx bd un cs fs = some (fs', tr) →
        ∀ x, ((∃ c ∈ cs, Reaches idx c x) → visit_count x tr = 1) ∧
             ((∀ c ∈ cs, ¬ Reaches idx c x) → visit_count x tr = 0)) := by
  have hupL : ∀ (p1 p2 : String) (pj1 pj2 : Project) (y : String),
      idx.lookup p1 = some pj1 → idx.lookup p2 = some pj2 →
      y ∈ pj1.ChildDirs → y ∈ pj2.ChildDirs → p1 = p2 := by
    intro p1 p2 pj1 pj2 y a b hy1 hy2
    exact hup (p1, pj1) (lookup_mem a) (p2, pj2) (lookup_mem b) y hy1 hy2
  intro fuel
  induction fuel with
  | zero =>
    constructor
    · intro cid fs fs' tr h
      rw [cafcd_zero] at h
      simp at h
    · intro cs fs fs' tr hpair hnodup h
      cases cs with
      | nil =>
        rw [walk_children_nil, Option.some.injEq, Prod.mk.injEq] at h
        obtain ⟨h1, h2⟩ := h
        subst h2
        intro x
        exact ⟨fun ⟨c, hc, _⟩ => absurd hc (List.not_mem_nil c), fun _ => rfl⟩
      | cons c cs =>
        rw [walk_children_cons, cafcd_zero] at h
        simp at h
  | succ f ih =>
    have hp : ∀ (cid : String) (fs fs' : FS) (tr : List Event),
        create_and_fill_child_dir (f + 1) cfg srv idx bd cid un fs = some (fs', tr) →
        ∀ x, (Reaches idx cid x → visit_count x tr = 1) ∧
             (¬ Reaches idx cid x → visit_count x tr = 0) := by
      intro cid fs fs' tr h
      cases hl : idx.lookup cid with
      | none =>
        rw [cafcd_succ_none f cfg srv idx bd cid un fs hl, Option.some.injEq,
          Prod.mk.injEq] at h
        obtain ⟨h1, h2⟩ := h
        subst h2
        intro x
        refine ⟨fun hr => ?_, fun _ => rfl⟩
        obtain ⟨proj, hpp⟩ := reaches_lookup hr
        rw [hl] at hpp
        cases hpp
      | some proj =>
        rw [cafcd_succ_some f cfg srv idx bd cid un fs proj hl] at h
        cases hw : walk_children f cfg srv idx bd un proj.ChildDirs
            (process_project_content cfg srv proj bd un fs).1 with
        | none => rw [hw] at h; simp at h
        | some p =>
          obtain ⟨fs2, tr2⟩ := p
          rw [hw] at h
          simp only [Option.map_some'] at h
          rw [Option.some.injEq, Prod.mk.injEq] at h
          obtain ⟨h1, h2⟩ := h
          subst h2
          have hpair : ∀ c1 ∈ proj.ChildDirs, ∀ c2 ∈ proj.ChildDirs, c1 ≠ c2 →
              ∀ y, ¬ (Reaches idx c1 y ∧ Reaches idx c2 y) :=
            fun c1 hc1 c2 hc2 hne =>
              reaches_sibling_disjoint hrk hupL hl hc1 hc2 hne
          have hK := ih.2 proj.ChildDirs _ fs2 tr2 hpair
            (hnd (cid, proj) (lookup_mem hl)) hw
          have hr0 : ∀ x,
              visit_count x (process_project_content cfg srv proj bd un fs).2 = 0 := by
            intro x
            simp only [process_project_content]
            exact run_tasks_visit_count cfg srv _ un x (download_tasks proj) fs
          intro x
          rw [visit_count_append, visit_count_visit_cons, hr0]
          constructor
          · intro hr
            by_cases hx : x = cid
            · subst hx
              have hz : visit_count x tr2 = 0 := by
                apply (hK x).2
                intro c hc hcx
                have hle : rank x ≤ rank c := reaches_rank hrk hcx
                have hlt : rank c < rank x := hrk (x, proj) (lookup_mem hl) c hc
                omega
              rw [hz]
              simp
            · rcases reaches_decompose hr with he | ⟨c, prj, hc1, hc2, hcr⟩
              · exact absurd he.symm hx
              · rw [hl] at hc1
                cases hc1
                have h1c : visit_count x tr2 = 1 := (hK x).1 ⟨c, hc2, hcr⟩
                rw [h1c]
                simp [Ne.symm hx]
          · intro hnr
            have hxne : cid ≠ x := by
              intro he
              subst he
              exact hnr (Reaches.refl proj hl)
            have hz : visit_count x tr2 = 0 := by
              apply (hK x).2
              intro c hc hcx
              exact hnr (reaches_trans_child hl hc hcx)
            rw [hz]
            simp [hxne]
    refine ⟨hp, ?_⟩
    intro cs
    induction cs with
    | nil =>
      intro fs fs' tr hpair hnodup h
      rw [walk_children_nil, Option.some.injEq, Prod.mk.injEq] at h
      obtain ⟨h1, h2⟩ := h
      subst h2
      intro x
      exact ⟨fun ⟨c, hc, _⟩ => absurd hc (List.not_mem_nil c), fun _ => rfl⟩
    | cons c cs ihcs =>
      intro fs fs' tr hpair hnodup h
      rw [List.nodup_cons] at hnodup
      cases h1 : create_and_fill_child_dir (f + 1) cfg srv idx bd c un fs with
      | none => rw [walk_children_cons_none _ _ _ _ _ _ _ _ _ h1] at h; simp at h
      | some p =>
        obtain ⟨fs1, tr1⟩ := p
        rw [walk_children_cons_some _ _ _ _ _ _ _ _ _ _ _ h1] at h
        cases h2 : walk_children (f + 1) cfg srv idx bd un cs fs1 with
        | none => rw [h2] at h; simp at h
        | some q =>
          obtain ⟨fs2, tr2⟩ := q
          rw [h2] at h
          simp only [Option.map_some'] at h
          rw [Option.some.injEq, Prod.mk.injEq] at h
          obtain ⟨hA, hB⟩ := h
          subst hB
          have hP1 := hp c fs fs1 tr1 h1
          have hpair2 : ∀ c1 ∈ cs, ∀ c2 ∈ cs, c1 ≠ c2 → ∀ y,
              ¬ (Reaches idx c1 y ∧ Reaches idx c2 y) :=
            fun c1 hc1 c2 hc2 => hpair c1 (List.mem_cons_of_mem _ hc1) c2
              (List.mem_cons_of_mem _ hc2)
          have hK2 := ihcs fs1 fs2 tr2 hpair2 hnodup.2 h2
          intro x
          rw [visit_count_append]
          constructor
          · rintro ⟨c0, hc0, hr0⟩
            rw [List.mem_cons] at hc0
            rcases hc0 with rfl | hc0
            · have ha : visit_count x tr1 = 1 := (hP1 x).1 hr0
              have hb : visit_count x tr2 = 0 := by
                apply (hK2 x).2
                intro c' hc' hcx'
                have hne : c0 ≠ c' := fun he => hnodup.1 (he ▸ hc')
                exact hpair c0 (List.mem_cons_self _ _) c'
                  (List.mem_cons_of_mem _ hc') hne x ⟨hr0, hcx'⟩
              omega
            · have hb : visit_count x tr2 = 1 := (hK2 x).1 ⟨c0, hc0, hr0⟩
              have ha : visit_count x tr1 = 0 := by
                apply (hP1 x).2
                intro hcx
                have hne : c ≠ c0 := fun he => hnodup.1 (he ▸ hc0)
                exact hpair c (List.mem_cons_self _ _) c0
                  (List.mem_cons_of_mem _ hc0) hne x ⟨hcx, hr0⟩
              omega
          · intro hnr
            have ha : visit_count x tr1 = 0 := (hP1 x).2 (hnr c (List.mem_cons_self _ _))
            have hb : visit_count x tr2 = 0 := (hK2 x).2
              (fun c' hc' => hnr c' (List.mem_cons_of_mem _ hc'))
            omega

/-- C8: over any acyclic project forest — rank decreasing along child
edges, duplicate-free child lists, unique parents — and any duplicate-free
root set whose members are nobody's children, a completed walk of the root
set visits each project reachable from the root set exactly once and visits
nothing else.  The worker-pool size (`cfg.max_workers`) plays no role: the
statement holds for every configuration, the pool being modelled by a
sequential schedule of the same task set.  An id absent from the index —
as a root or as a child — is a no-op: the walker returns at once with no
visit, an unchanged filesystem and no error. -/
theorem C8_walk_visits_once (cfg : Config) (srv : Server) (idx : Index)
    (rank : String → Nat) (bd un : String) (roots : List String)
    (hrk : ∀ e ∈ idx, ∀ c ∈ e.2.ChildDirs, rank c < rank e.1)
    (hnd : ∀ e ∈ idx, e.2.ChildDirs.Nodup)
    (hup : ∀ e1 ∈ idx, ∀ e2 ∈ idx, ∀ c ∈ e1.2.ChildDirs,
        c ∈ e2.2.ChildDirs → e1.1 = e2.1)
    (hroots_nd : roots.Nodup)
    (hroots_nc : ∀ r ∈ roots, ∀ e ∈ idx, r ∉ e.2.ChildDirs)
    (fuel : Nat) (fs fs' : FS) (tr : List Event)
    (hrun : walk_children fuel cfg srv idx bd un roots fs = some (fs', tr)) :
    (∀ x, ((∃ r ∈ roots, Reaches idx r x) → visit_count x tr = 1) ∧
          ((∀ r ∈ roots, ¬ Reaches idx r x) → visit_count x tr = 0)) ∧
    (∀ (f : Nat) (cid : String) (fsx : FS), idx.lookup cid = none →
        create_and_fill_child_dir (f + 1) cfg srv idx bd cid un fsx =
          some (fsx, [])) := by
  have hupL : ∀ (p1 p2 : String) (pj1 pj2 : Project) (y : String),
      idx.lookup p1 = some pj1 → idx.lookup p2 = some pj2 →
      y ∈ pj1.ChildDirs → y ∈ pj2.ChildDirs → p1 = p2 := by
    intro p1 p2 pj1 pj2 y a b hy1 hy2
    exact hup (p1, pj1) (lookup_mem a) (p2, pj2) (lookup_mem b) y hy1 hy2
  have hpair : ∀ r1 ∈ roots, ∀ r2 ∈ roots, r1 ≠ r2 → ∀ y,
      ¬ (Reaches idx r1 y ∧ Reaches idx r2 y) :=
    fun r1 h1 r2 h2 hne => reaches_roots_disjoint hupL
      (fun e he => hroots_nc r1 h1 e he) (fun e he => hroots_nc r2 h2 e he) hne
  exact ⟨fun x => (walk_visit_count cfg srv idx bd un rank hrk hnd hup fuel).2
      roots fs fs' tr hpair hroots_nd hrun x,
    fun f cid fsx hl => cafcd_succ_none f cfg srv idx bd cid un fsx hl⟩

/-- Witness for C8 on the concrete two-level forest: both projects visited
once, an unknown id never visited, and a missing root id is a silent
no-op. -/
theorem C8_witness :
    visit_count "1" trSample = 1 ∧ visit_count "2" trSample = 1 ∧
    visit_count "99" trSample = 0 ∧
    create_and_fill_child_dir 1 cfgDefault srvOK idxSample "Tableau_Projects" "99"
      "u" fsEmpty = some (fsEmpty, []) := by
  have hs : (walk_children 3 cfgDefault srvOK idxSample "Tableau_Projects" "u"
      ["1"] fsEmpty).isSome = true := by decide
  obtain ⟨⟨fs', tr⟩, hr⟩ := Option.isSome_iff_exists.mp hs
  have htr : (walk_children 3 cfgDefault srvOK idxSample "Tableau_Projects" "u"
      ["1"] fsEmpty).map Prod.snd = some trSample := by decide
  rw [hr] at htr
  simp only [Option.map_some'] at htr
  rw [Option.some.injEq] at htr
  have hC := C8_walk_visits_once cfgDefault srvOK idxSample rankSample
    "Tableau_Projects" "u" ["1"] (by decide) (by decide) (by decide) (by decide)
    (by decide) 3 fsEmpty fs' tr hr
  have hre1 : Reaches idxSample "1" "1" :=
    Reaches.refl ⟨"Sales", [("Q1", "101")], [], ["2"]⟩ (by decide)
  have hre2 : Reaches idxSample "1" "2" :=
    Reaches.step hre1
      ((by decide : idxSample.lookup "1" =
        some ⟨"Sales", [("Q1", "101")], [], ["2"]⟩))
      (by decide)
      ((by decide : idxSample.lookup "2" =
        some ⟨"Sales EMEA", [], [("Region", "201")], []⟩))
  refine ⟨?_, ?_, ?_, hC.2 0 "99" fsEmpty (by decide)⟩
  · rw [← htr]
    exact (hC.1 "1").1 ⟨"1", by decide, hre1⟩
  · rw [← htr]
    exact (hC.1 "2").1 ⟨"1", by decide, hre2⟩
  · rw [← htr]
    apply (hC.1 "99").2
    intro r hrm hre
    rw [List.mem_singleton] at hrm
    subst hrm
    obtain ⟨pj, hpj⟩ := reaches_lookup_target hre
    have : (none : Option Project) = some pj := by
      rw [← hpj]; decide
    cases this

/-- C2: any failure of the remote download call is caught inside the item's
fetch and recorded with its error kind in the per-item outcome (the changed
flag false, the filesystem untouched), never propagating: the fetcher
records exactly one outcome per task whatever the server does, and a run
over any index with any server behaviour — failures included — still
completes and still reaches the commit. -/
theorem C2_errors_contained :
    (∀ (cfg : Config) (srv : Server) (fs : FS) (dir cid name user : String),
      should_download_file cfg fs (dir ++ "/" ++ name ++ ".twbx") cid = true →
      srv.workbooks cid = DlBehavior.serverResponseError →
      download_workbook cfg srv fs dir cid name user =
        ⟨fs, ⟨Kind.workbook, name, cid, dir ++ "/" ++ name ++ ".twbx", false,
          some ErrKind.serverResponse, false⟩⟩) ∧
    (∀ (cfg : Config) (srv : Server) (fs : FS) (dir cid name user : String),
      should_download_file cfg fs (dir ++ "/" ++ name ++ ".twbx") cid = true →
      srv.workbooks cid = DlBehavior.otherError →
      download_workbook cfg srv fs dir cid name user =
        ⟨fs, ⟨Kind.workbook, name, cid, dir ++ "/" ++ name ++ ".twbx", false,
          some ErrKind.other, false⟩⟩) ∧
    (∀ (cfg : Config) (srv : Server) (fs : FS) (dir cid name user : String),
      should_download_file cfg fs (dir ++ "/" ++ name ++ ".tdsx") cid = true →
      srv.datasources cid = DlBehavior.serverResponseError →
      download_datasource cfg srv fs dir cid name user =
        ⟨fs, ⟨Kind.datasource, name, cid, dir ++ "/" ++ name ++ ".tdsx", false,
          some ErrKind.serverResponse, false⟩⟩) ∧
    (∀ (cfg : Config) (srv : Server) (fs : FS) (dir cid name user : String),
      should_download_file cfg fs (dir ++ "/" ++ name ++ ".tdsx") cid = true →
      srv.datasources cid = DlBehavior.otherError →
      download_datasource cfg srv fs dir cid name user =
        ⟨fs, ⟨Kind.datasource, name, cid, dir ++ "/" ++ name ++ ".tdsx", false,
          some ErrKind.other, false⟩⟩) ∧
    (∀ (cfg : Config) (srv : Server) (proj : Project) (bd user : String) (fs : FS),
      (fetch_outcomes (process_project_content cfg srv proj bd user fs).2).length =
        (download_tasks proj).length) ∧
    (∀ (cfg : Config) (srv : Server) (idx : Index) (rank : String → Nat)
        (roots : List String) (user : String) (fuel : Nat) (fs : FS),
      (∀ e ∈ idx, ∀ c ∈ e.2.ChildDirs, rank c < rank e.1) →
      (∀ r ∈ roots, rank r < fuel) →
      ∃ fs' tr, backup_tableau_run fuel cfg srv idx roots user fs = some (fs', tr) ∧
        Event.commit ∈ tr) := by
  refine ⟨?_, ?_, ?_, ?_, ?_, ?_⟩
  · intro cfg srv fs dir cid name user hsd hw
    simp [download_workbook, hsd, hw]
  · intro cfg srv fs dir cid name user hsd hw
    simp [download_workbook, hsd, hw]
  · intro cfg srv fs dir cid name user hsd hw
    simp [download_datasource, hsd, hw]
  · intro cfg srv fs dir cid name user hsd hw
    simp [download_datasource, hsd, hw]
  · intro cfg srv proj bd user fs
    simp only [process_project_content]
    exact run_tasks_outcome_count cfg srv _ user (download_tasks proj) fs
  · intro cfg srv idx rank roots user fuel fs hrk hroots
    have ht := (walk_total cfg srv idx cfg.base_dir user rank hrk fuel).2 roots
      (fun c hc => hroots c hc) fs
    cases hw : walk_children fuel cfg srv idx cfg.base_dir user roots fs with
    | none => rw [hw] at ht; simp at ht
    | some p =>
      obtain ⟨fs1, tr1⟩ := p
      refine ⟨fs1, tr1 ++ [Event.commit], ?_, ?_⟩
      · unfold backup_tableau_run
        rw [hw]
      · exact List.mem_append_right _ (List.mem_cons_self _ _)

/-- Witness for C2: the denied workbook and the failing datasource each
yield a recorded outcome with their error kind and an untouched filesystem;
the concrete mixed run (workbook denied, sibling datasource delivered)
still records both outcomes and ends in the commit. -/
theorem C2_witness :
    download_workbook cfgDefault srvBad fsEmpty "Tableau_Projects/Sales" "101" "Q1"
        "u" =
      ⟨fsEmpty, ⟨Kind.workbook, "Q1", "101",
        "Tableau_Projects/Sales" ++ "/" ++ "Q1" ++ ".twbx", false,
        some ErrKind.serverResponse, false⟩⟩ ∧
    download_datasource cfgDefault srvBad fsEmpty "Tableau_Projects/Sales_EMEA"
        "201" "Region" "u" =
      ⟨fsEmpty, ⟨Kind.datasource, "Region", "201",
        "Tableau_Projects/Sales_EMEA" ++ "/" ++ "Region" ++ ".tdsx", false,
        some ErrKind.other, false⟩⟩ ∧
    (∃ fs' tr, backup_tableau_run 3 cfgDefault srvBad idxSample ["1"] "u" fsEmpty =
        some (fs', tr) ∧ Event.commit ∈ tr) ∧
    (backup_tableau_run 3 cfgDefault srvMixed idxSample ["1"] "u" fsEmpty).map
        Prod.snd = some trMixed := by
  refine ⟨C2_errors_contained.1 cfgDefault srvBad fsEmpty "Tableau_Projects/Sales"
      "101" "Q1" "u" (by decide) (by decide),
    C2_errors_contained.2.2.2.1 cfgDefault srvBad fsEmpty "Tableau_Projects/Sales_EMEA"
      "201" "Region" "u" (by decide) (by decide),
    C2_errors_contained.2.2.2.2.2 cfgDefault srvBad idxSample rankSample ["1"] "u" 3
      fsEmpty (by decide) (by decide),
    by decide⟩

end TableauBackup
